import Mathlib

/-!
Verification development for the join-suggestion core of a readonly
PostgreSQL introspection server (src/src/database.ts).

The join-path inference engine of the repository is implemented by
DatabaseService.suggestJoinExpressions and its helper
findJoinsBetweenTables.  The helper runs one SQL query over
information_schema: two CTEs select the foreign-key constraint rows of
the left table (l) and of the right table (r), then three SELECT arms
(shared reference, direct reference, reverse reference) build candidate
rows with a rendered clause (generated_sql), a priority, a join_type and
a description, merged by UNION ALL, ordered by priority descending.  The
TypeScript loop then turns every returned row into a LEFT JOIN
suggestion, adds an INNER JOIN variant when the score is at least 90,
and suggestJoinExpressions concatenates the per-pair lists, sorts by
score descending (JavaScript sort is stable) and removes duplicate
expressions, keeping the first occurrence.

The embedding below models that computation over an explicit in-memory
database: the list of existing tables (pg_tables) and the list of
foreign-key constraint rows visible through information_schema.  SQL
string operators are modelled character-exactly: || is String.append,
POSITION(x IN y) > 0 is substring containment (true for the empty
needle, as in PostgreSQL), GREATEST is Nat.max, and the unspecified tie
order of ORDER BY ... DESC is modelled as a stable descending sort of
the UNION ALL arm order, matching the one deterministic refinement the
TypeScript consumer itself uses downstream.  JavaScript
String.prototype.replace with a string pattern replaces the first
occurrence only; replaceFirst below models exactly that.
-/

namespace PgMcpJoins

/-- A foreign-key constraint row as produced by joining
information_schema.table_constraints, key_column_usage and
constraint_column_usage, with the column names used by the l and r
CTEs of the query in findJoinsBetweenTables. -/
structure FkConstraintRow where
  table_schema : String
  table_name : String
  column_name : String
  referenced_schema : String
  referenced_table : String
  referenced_column : String
  constraint_name : String
deriving DecidableEq, Repr

/-- A table as passed to suggestJoinExpressions: a (possibly
schema-qualified) table name together with the alias the query assigns
to it.  The TypeScript field named alias is called tableAlias here
because alias is a reserved word in Lean. -/
structure TableRef where
  tableName : String
  tableAlias : String
deriving DecidableEq, Repr

/-- The visible database state consulted by the SQL in database.ts:
the existing tables, as (schemaname, tablename) pairs from pg_tables,
and all foreign-key constraint rows of information_schema. -/
structure Database where
  tables : List (String × String)
  fkRows : List FkConstraintRow
deriving DecidableEq, Repr

/-- The join type tag of a suggestion; the TypeScript union
"INNER JOIN" | "LEFT JOIN". -/
inductive JoinType where
  | innerJoin
  | leftJoin
deriving DecidableEq, Repr

/-- One join suggestion as returned by suggestJoinExpressions. -/
structure Suggestion where
  joinType : JoinType
  expression : String
  description : String
  score : Nat
deriving DecidableEq, Repr

/-- Character-list prefix test (same behaviour as List.isPrefixOf,
kept self-contained so that all concrete instances reduce in the
kernel). -/
def prefCheck : List Char → List Char → Bool
  | [], _ => true
  | _ :: _, [] => false
  | a :: as, b :: bs => a == b && prefCheck as bs

/-- Substring containment check: models SQL POSITION(needle IN hay) > 0,
which is true whenever needle occurs in hay, including the empty
needle. -/
def infCheck (needle : List Char) : List Char → Bool
  | [] => prefCheck needle []
  | c :: cs => prefCheck needle (c :: cs) || infCheck needle cs

/-- POSITION(needle IN hay) > 0 on strings. -/
def positionFound (needle hay : String) : Bool :=
  infCheck needle.data hay.data

/-- Replace the first occurrence of pat by rep, on character lists;
models JavaScript String.prototype.replace with a string pattern. -/
def replaceFirstList (pat rep : List Char) : List Char → List Char
  | [] => if prefCheck pat [] then rep else []
  | c :: cs =>
    if prefCheck pat (c :: cs) then rep ++ (c :: cs).drop pat.length
    else c :: replaceFirstList pat rep cs

/-- Replace the first occurrence of pat by rep in s; models the
JavaScript call s.replace(pat, rep) used for the INNER JOIN variant. -/
def replaceFirst (pat rep s : String) : String :=
  String.mk (replaceFirstList pat.data rep.data s.data)

/-- Split a character list at every occurrence of the dot character;
models the JavaScript call tableName.split(".").  The result is always
non-empty, and splitting the empty string gives one empty part, as in
JavaScript. -/
def splitOnDot : List Char → List (List Char)
  | [] => [[]]
  | c :: cs =>
    if c = '.' then [] :: splitOnDot cs
    else
      match splitOnDot cs with
      | [] => [[c]]
      | p :: ps => (c :: p) :: ps

/-- The schema/table parsing used by getTableInfo (database.ts lines
56-59) and findJoinsBetweenTables (lines 467-474): split on the dot
character; when there are exactly two parts the first is the schema and
the second the table, otherwise the schema defaults to public and the
whole original identifier is the table name. -/
def splitTableName (tableName : String) : String × String :=
  if (splitOnDot tableName.data).length = 2 then
    (String.mk ((splitOnDot tableName.data).getD 0 []),
      String.mk ((splitOnDot tableName.data).getD 1 []))
  else ("public", tableName)

/-- The existence test of getTableInfo: the parsed (schema, table) pair
must appear in pg_tables, otherwise getTableInfo returns null. -/
def tableExists (db : Database) (tableName : String) : Prop :=
  splitTableName tableName ∈ db.tables

instance (db : Database) (tableName : String) : Decidable (tableExists db tableName) := by
  unfold tableExists; infer_instance

/-- The six scalar inputs of the SQL query in findJoinsBetweenTables. -/
structure Inputs where
  left_schema : String
  left_table : String
  left_alias : String
  right_schema : String
  right_table : String
  right_alias : String
deriving DecidableEq, Repr

/-- Build the query inputs from the two table references, parsing each
table name as in database.ts lines 467-474. -/
def mkInputs (leftTable rightTable : TableRef) : Inputs :=
  { left_schema := (splitTableName leftTable.tableName).1
    left_table := (splitTableName leftTable.tableName).2
    left_alias := leftTable.tableAlias
    right_schema := (splitTableName rightTable.tableName).1
    right_table := (splitTableName rightTable.tableName).2
    right_alias := rightTable.tableAlias }

/-- The l CTE: foreign-key constraint rows whose constrained table is
the left table. -/
def lRows (db : Database) (inp : Inputs) : List FkConstraintRow :=
  db.fkRows.filter fun e =>
    e.table_schema == inp.left_schema && e.table_name == inp.left_table

/-- The r CTE: foreign-key constraint rows whose constrained table is
the right table. -/
def rRows (db : Database) (inp : Inputs) : List FkConstraintRow :=
  db.fkRows.filter fun e =>
    e.table_schema == inp.right_schema && e.table_name == inp.right_table

/-- The schema qualification fragment: empty for the public schema,
otherwise the schema name followed by a dot (the CASE WHEN ... =
'public' expressions of the query). -/
def schemaPart (schema : String) : String :=
  if schema = "public" then "" else schema ++ "."

/-- The alias fragment appended after the joined table: empty when the
rendered table name equals the alias being compared, otherwise a space
followed by that alias (the CASE WHEN ... = alias expressions of the
query). -/
def aliasPart (tbl als : String) : String :=
  if tbl = als then "" else " " ++ als

/-- One row produced by the SQL query: the rendered clause, its
priority, the join_type column (always the LEFT JOIN literal) and the
description. -/
structure QueryRow where
  generated_sql : String
  priority : Nat
  join_type : String
  description : String
deriving DecidableEq, Repr

/-- Case 1 of the query: both tables reference the same table (join
through shared reference).  Note the rendered clause introduces the
right table (r.table_name with the right alias); the referenced third
table appears only in the description. -/
def case1Row (inp : Inputs) (le re : FkConstraintRow) : QueryRow where
  generated_sql :=
    "LEFT JOIN " ++ (schemaPart re.table_schema ++ (re.table_name ++
      (aliasPart re.table_name inp.right_alias ++ (" ON " ++
        (inp.left_alias ++ ("." ++ (le.column_name ++ (" = " ++
          (inp.right_alias ++ ("." ++ re.column_name))))))))))
  priority :=
    Nat.max (if positionFound inp.right_alias re.column_name then 90 else 0)
      (Nat.max (if positionFound inp.left_alias le.column_name then 90 else 0) 85)
  join_type := "LEFT JOIN"
  description :=
    "Join through shared reference to " ++ le.referenced_table ++ " (FK: " ++
      le.constraint_name ++ ", " ++ re.constraint_name ++ ")"

/-- All case 1 rows: the cross join of the l and r CTEs restricted to
pairs referencing the same schema, table and column. -/
def case1Rows (inp : Inputs) (l r : List FkConstraintRow) : List QueryRow :=
  l.flatMap fun le =>
    (r.filter fun re =>
      le.referenced_schema == re.referenced_schema &&
      le.referenced_table == re.referenced_table &&
      le.referenced_column == re.referenced_column).map (case1Row inp le)

/-- Case 2 of the query: the left table references the right table
directly. -/
def case2Row (inp : Inputs) (le : FkConstraintRow) : QueryRow where
  generated_sql :=
    "LEFT JOIN " ++ (schemaPart le.referenced_schema ++ (le.referenced_table ++
      (aliasPart le.referenced_table inp.right_alias ++ (" ON " ++
        (inp.left_alias ++ ("." ++ (le.column_name ++ (" = " ++
          (inp.right_alias ++ ("." ++ le.referenced_column))))))))))
  priority :=
    Nat.max (if positionFound inp.right_alias le.column_name then 100 else 95) 95
  join_type := "LEFT JOIN"
  description :=
    "Direct foreign key relationship from " ++ inp.left_table ++ " to " ++
      inp.right_table ++ " (FK: " ++ le.constraint_name ++ ")"

/-- All case 2 rows. -/
def case2Rows (inp : Inputs) (l : List FkConstraintRow) : List QueryRow :=
  (l.filter fun le =>
    le.referenced_schema == inp.right_schema &&
    le.referenced_table == inp.right_table).map (case2Row inp)

/-- Case 3 of the query: the right table references the left table
directly.  The rendered clause introduces r.table_name (the right
table) but, exactly as written in the SQL, qualifies it with the
referenced (left) schema condition and appends the LEFT alias, while
the ON clause refers to the right alias. -/
def case3Row (inp : Inputs) (re : FkConstraintRow) : QueryRow where
  generated_sql :=
    "LEFT JOIN " ++ (schemaPart re.referenced_schema ++ (re.table_name ++
      (aliasPart re.table_name inp.left_alias ++ (" ON " ++
        (inp.right_alias ++ ("." ++ (re.column_name ++ (" = " ++
          (inp.left_alias ++ ("." ++ re.referenced_column))))))))))
  priority :=
    Nat.max (if positionFound inp.left_alias re.column_name then 100 else 95) 95
  join_type := "LEFT JOIN"
  description :=
    "Reverse foreign key relationship from " ++ inp.right_table ++ " to " ++
      inp.left_table ++ " (FK: " ++ re.constraint_name ++ ")"

/-- All case 3 rows. -/
def case3Rows (inp : Inputs) (r : List FkConstraintRow) : List QueryRow :=
  (r.filter fun re =>
    re.referenced_schema == inp.left_schema &&
    re.referenced_table == inp.left_table).map (case3Row inp)

/-- Descending comparison by a natural-number key: relates a before b
when the key of b is at most the key of a. -/
abbrev byKeyDesc (key : α → Nat) (a b : α) : Prop := key b ≤ key a

instance (key : α → Nat) : IsTotal α (byKeyDesc key) :=
  ⟨fun a b => Nat.le_total (key b) (key a)⟩

instance (key : α → Nat) : IsTrans α (byKeyDesc key) :=
  ⟨fun _ _ _ h1 h2 => Nat.le_trans h2 h1⟩

/-- Stable descending sort by a natural-number key.  Models both the
SQL ORDER BY priority DESC of the query (tie order refined to the
stable order of the UNION ALL arms) and the stable JavaScript
Array.prototype.sort with comparator (a, b) => b.score - a.score. -/
def sortByKeyDesc (key : α → Nat) (l : List α) : List α :=
  List.insertionSort (byKeyDesc key) l

/-- The full row set returned by the SQL query of
findJoinsBetweenTables: the three cases in UNION ALL order, ordered by
priority descending. -/
def queryRows (db : Database) (inp : Inputs) : List QueryRow :=
  sortByKeyDesc (fun row => row.priority)
    (case1Rows inp (lRows db inp) (rRows db inp) ++
      (case2Rows inp (lRows db inp) ++ case3Rows inp (rRows db inp)))

/-- The LEFT JOIN suggestion pushed for every returned row. -/
def leftSuggestion (row : QueryRow) : Suggestion :=
  { joinType := JoinType.leftJoin
    expression := row.generated_sql
    description := row.description
    score := row.priority }

/-- The INNER JOIN variant pushed for rows with score at least 90: the
join keyword of the expression is textually replaced (first occurrence),
"Left join" is replaced by "Inner join" in the description, and the
score is raised by 5. -/
def innerSuggestion (row : QueryRow) : Suggestion :=
  { joinType := JoinType.innerJoin
    expression := replaceFirst "LEFT JOIN" "INNER JOIN" row.generated_sql
    description := replaceFirst "Left join" "Inner join" row.description
    score := row.priority + 5 }

/-- The INNER JOIN variant expressed as a function of the LEFT JOIN
suggestion it doubles; innerSuggestion row is definitionally
innerVariant (leftSuggestion row). -/
def innerVariant (s : Suggestion) : Suggestion :=
  { joinType := JoinType.innerJoin
    expression := replaceFirst "LEFT JOIN" "INNER JOIN" s.expression
    description := replaceFirst "Left join" "Inner join" s.description
    score := s.score + 5 }

/-- The suggestions pushed for one returned row, in push order. -/
def rowSuggestions (row : QueryRow) : List Suggestion :=
  if 90 ≤ row.priority then [leftSuggestion row, innerSuggestion row]
  else [leftSuggestion row]

/-- findJoinsBetweenTables: run the query for the pair and convert every
row to its suggestion(s), in row order. -/
def findJoinsBetweenTables (db : Database) (leftTable rightTable : TableRef) :
    List Suggestion :=
  (queryRows db (mkInputs leftTable rightTable)).flatMap rowSuggestions

/-- The concatenated candidate list built by the loop of
suggestJoinExpressions before sorting and deduplicating. -/
def allCandidates (db : Database) (existingTables : List TableRef)
    (newTable : TableRef) : List Suggestion :=
  existingTables.flatMap fun t => findJoinsBetweenTables db t newTable

/-- Keep the first occurrence of every expression, skipping expressions
already seen; models the JavaScript filter keeping elements whose index
equals the findIndex of their expression. -/
def dedupByExprAux (seen : List String) : List Suggestion → List Suggestion
  | [] => []
  | s :: rest =>
    if s.expression ∈ seen then dedupByExprAux seen rest
    else s :: dedupByExprAux (s.expression :: seen) rest

/-- suggestJoinExpressions: concatenate the per-pair suggestion lists,
sort by score descending (stable) and remove duplicate expressions,
keeping the first (hence highest-scoring) occurrence. -/
def suggestJoinExpressions (db : Database) (existingTables : List TableRef)
    (newTable : TableRef) : List Suggestion :=
  dedupByExprAux [] (sortByKeyDesc (fun s => s.score)
    (allCandidates db existingTables newTable))

/-- Edge well-formedness of a database: every foreign-key constraint row
relates two tables that exist in pg_tables.  Any real PostgreSQL
catalog satisfies this. -/
def dbWellFormed (db : Database) : Prop :=
  ∀ e ∈ db.fkRows,
    (e.table_schema, e.table_name) ∈ db.tables ∧
    (e.referenced_schema, e.referenced_table) ∈ db.tables

instance (db : Database) : Decidable (dbWellFormed db) := by
  unfold dbWellFormed; infer_instance

/-- A foreign-key row whose constrained table is the referenced table
named by t. -/
def sourceMatches (t : TableRef) (e : FkConstraintRow) : Prop :=
  e.table_schema = (splitTableName t.tableName).1 ∧
  e.table_name = (splitTableName t.tableName).2

/-- A foreign-key row whose referenced table is the table named by t. -/
def refMatches (t : TableRef) (e : FkConstraintRow) : Prop :=
  e.referenced_schema = (splitTableName t.tableName).1 ∧
  e.referenced_table = (splitTableName t.tableName).2

/-- Two foreign-key rows referencing the same schema, table and
column. -/
def sameTarget (le re : FkConstraintRow) : Prop :=
  le.referenced_schema = re.referenced_schema ∧
  le.referenced_table = re.referenced_table ∧
  le.referenced_column = re.referenced_column

instance (t : TableRef) (e : FkConstraintRow) : Decidable (sourceMatches t e) := by
  unfold sourceMatches; infer_instance

instance (t : TableRef) (e : FkConstraintRow) : Decidable (refMatches t e) := by
  unfold refMatches; infer_instance

instance (le re : FkConstraintRow) : Decidable (sameTarget le re) := by
  unfold sameTarget; infer_instance

/-- The foreign key orders.user_id referencing users.id. -/
def fkOrdersUser : FkConstraintRow :=
  { table_schema := "public", table_name := "orders", column_name := "user_id"
    referenced_schema := "public", referenced_table := "users"
    referenced_column := "id", constraint_name := "orders_user_id_fkey" }

/-- The foreign key order_items.order_id referencing orders.id. -/
def fkItemsOrder : FkConstraintRow :=
  { table_schema := "public", table_name := "order_items", column_name := "order_id"
    referenced_schema := "public", referenced_table := "orders"
    referenced_column := "id", constraint_name := "order_items_order_id_fkey" }

/-- The foreign key order_items.user_id referencing users.id. -/
def fkItemsUser : FkConstraintRow :=
  { table_schema := "public", table_name := "order_items", column_name := "user_id"
    referenced_schema := "public", referenced_table := "users"
    referenced_column := "id", constraint_name := "order_items_user_id_fkey" }

/-- The foreign key customers.region_id referencing regions.id. -/
def fkCustomersRegion : FkConstraintRow :=
  { table_schema := "public", table_name := "customers", column_name := "region_id"
    referenced_schema := "public", referenced_table := "regions"
    referenced_column := "id", constraint_name := "customers_region_id_fkey" }

/-- The users / orders / order_items scenario from the specification:
orders.user_id references users.id, order_items.order_id references
orders.id, and order_items.user_id references users.id. -/
def dbFull : Database :=
  { tables := [("public", "users"), ("public", "orders"), ("public", "order_items")]
    fkRows := [fkOrdersUser, fkItemsOrder, fkItemsUser] }

/-- A two-table schema whose only foreign key goes from order_items to
orders. -/
def dbReverse : Database :=
  { tables := [("public", "orders"), ("public", "order_items")]
    fkRows := [fkItemsOrder] }

/-- A schema in which orders and order_items both reference users.id
and have no other relationship. -/
def dbShared : Database :=
  { tables := [("public", "users"), ("public", "orders"), ("public", "order_items")]
    fkRows := [fkOrdersUser, fkItemsUser] }

/-- A schema in which customers and products are unrelated: the only
foreign key goes from customers to regions. -/
def dbUnrelated : Database :=
  { tables := [("public", "customers"), ("public", "products"), ("public", "regions")]
    fkRows := [fkCustomersRegion] }

/-! ### Facts about the stable descending sort -/

theorem sortByKeyDesc_perm (key : α → Nat) (l : List α) :
    List.Perm (sortByKeyDesc key l) l :=
  List.perm_insertionSort _ l

theorem mem_sortByKeyDesc {key : α → Nat} {l : List α} {a : α} :
    a ∈ sortByKeyDesc key l ↔ a ∈ l :=
  List.mem_insertionSort (byKeyDesc key)

theorem sortByKeyDesc_sorted (key : α → Nat) (l : List α) :
    (sortByKeyDesc key l).Pairwise (byKeyDesc key) :=
  List.sorted_insertionSort _ l

theorem sortByKeyDesc_stable {key : α → Nat} {l c : List α}
    (hp : c.Pairwise (byKeyDesc key)) (hc : List.Sublist c l) :
    List.Sublist c (sortByKeyDesc key l) :=
  List.sublist_insertionSort hp hc

/-! ### Facts about first-occurrence deduplication by expression -/

theorem dedupByExprAux_sublist (seen : List String) (l : List Suggestion) :
    List.Sublist (dedupByExprAux seen l) l := by
  induction l generalizing seen with
  | nil => simp [dedupByExprAux]
  | cons s rest ih =>
    unfold dedupByExprAux
    split
    · exact (ih seen).trans (List.sublist_cons_self s rest)
    · exact List.Sublist.cons₂ s (ih _)

theorem mem_of_mem_dedupByExprAux {seen : List String} {l : List Suggestion}
    {t : Suggestion} (ht : t ∈ dedupByExprAux seen l) : t ∈ l :=
  (dedupByExprAux_sublist seen l).mem ht

theorem expr_not_seen_of_mem_dedupByExprAux {seen : List String}
    {l : List Suggestion} {t : Suggestion} (ht : t ∈ dedupByExprAux seen l) :
    t.expression ∉ seen := by
  induction l generalizing seen with
  | nil => simp [dedupByExprAux] at ht
  | cons s rest ih =>
    unfold dedupByExprAux at ht
    split at ht
    · exact ih ht
    · next hnot =>
      rcases List.mem_cons.mp ht with h | h
      · subst h; exact hnot
      · have h2 := ih h
        intro hmem
        exact h2 (List.mem_cons_of_mem _ hmem)

theorem pairwise_dedupByExprAux (seen : List String) (l : List Suggestion) :
    (dedupByExprAux seen l).Pairwise fun a b => a.expression ≠ b.expression := by
  induction l generalizing seen with
  | nil => simp [dedupByExprAux]
  | cons s rest ih =>
    unfold dedupByExprAux
    split
    · exact ih seen
    · refine List.Pairwise.cons ?_ (ih _)
      intro b hb he
      have h2 := expr_not_seen_of_mem_dedupByExprAux hb
      exact h2 (by rw [← he]; exact List.mem_cons_self _ _)

theorem rep_dedupByExprAux {seen : List String} {l : List Suggestion}
    {c : Suggestion} (hc : c ∈ l) (hns : c.expression ∉ seen) :
    ∃ t ∈ dedupByExprAux seen l, t.expression = c.expression := by
  induction l generalizing seen with
  | nil => cases hc
  | cons s rest ih =>
    unfold dedupByExprAux
    by_cases hs : s.expression ∈ seen
    · rw [if_pos hs]
      rcases List.mem_cons.mp hc with h | h
      · exact absurd (by rw [h]; exact hs) hns
      · exact ih h hns
    · rw [if_neg hs]
      rcases List.mem_cons.mp hc with h | h
      · exact ⟨s, List.mem_cons_self _ _, by rw [h]⟩
      · by_cases he : c.expression = s.expression
        · exact ⟨s, List.mem_cons_self _ _, he.symm⟩
        · have hns2 : c.expression ∉ s.expression :: seen := by
            intro hm
            rcases List.mem_cons.mp hm with h1 | h1
            · exact he h1
            · exact hns h1
          rcases ih h hns2 with ⟨t, ht, hte⟩
          exact ⟨t, List.mem_cons_of_mem _ ht, hte⟩

theorem max_dedupByExprAux {t c : Suggestion} :
    ∀ (l : List Suggestion) (seen : List String),
      l.Pairwise (fun a b => b.score ≤ a.score) →
      t ∈ dedupByExprAux seen l → c ∈ l → c.expression = t.expression →
      c.score ≤ t.score := by
  intro l
  induction l with
  | nil => intro seen _ _ hc; cases hc
  | cons s rest ih =>
    intro seen hl ht hc he
    have hrest := hl.of_cons
    unfold dedupByExprAux at ht
    by_cases hs : s.expression ∈ seen
    · rw [if_pos hs] at ht
      rcases List.mem_cons.mp hc with h | h
      · have h2 := expr_not_seen_of_mem_dedupByExprAux ht
        rw [← he, h] at h2
        exact absurd hs h2
      · exact ih seen hrest ht h he
    · rw [if_neg hs] at ht
      rcases List.mem_cons.mp ht with h | h
      · subst h
        rcases List.mem_cons.mp hc with h1 | h1
        · rw [h1]
        · exact List.rel_of_pairwise_cons hl h1
      · rcases List.mem_cons.mp hc with h1 | h1
        · have h2 := expr_not_seen_of_mem_dedupByExprAux h
          rw [← he, h1] at h2
          exact absurd (List.mem_cons_self _ _) h2
        · exact ih _ hrest h h1 he

/-! ### String facts about the join-keyword replacement -/

theorem str_ext {a b : String} (h : a.data = b.data) : a = b := by
  cases a; cases b; exact congrArg String.mk h

theorem prefCheck_append_self : ∀ (p t : List Char), prefCheck p (p ++ t) = true := by
  intro p t
  induction p with
  | nil => rfl
  | cons a as ih => simp [prefCheck, ih]

theorem replaceFirstList_append (a : Char) (as rep t : List Char) :
    replaceFirstList (a :: as) rep ((a :: as) ++ t) = rep ++ t := by
  show replaceFirstList (a :: as) rep (a :: (as ++ t)) = rep ++ t
  unfold replaceFirstList
  have hp : prefCheck (a :: as) (a :: (as ++ t)) = true := prefCheck_append_self (a :: as) t
  rw [if_pos hp]
  congr 1
  show (a :: (as ++ t)).drop (as.length + 1) = t
  rw [List.drop_succ_cons]
  exact List.drop_left as t

theorem replaceFirst_left_inner (rest : String) :
    replaceFirst "LEFT JOIN" "INNER JOIN" ("LEFT JOIN " ++ rest) =
      "INNER JOIN " ++ rest := by
  refine str_ext ?_
  show replaceFirstList "LEFT JOIN".data "INNER JOIN".data ("LEFT JOIN " ++ rest).data =
    ("INNER JOIN " ++ rest).data
  rw [String.data_append, String.data_append]
  rw [show "LEFT JOIN ".data = ('L' :: "EFT JOIN".data) ++ [' '] from rfl,
    List.append_assoc]
  rw [show "LEFT JOIN".data = 'L' :: "EFT JOIN".data from rfl]
  rw [replaceFirstList_append]
  rw [show "INNER JOIN ".data = "INNER JOIN".data ++ [' '] from rfl, List.append_assoc]

theorem left_expr_ne_inner_expr (a b : String) :
    "LEFT JOIN " ++ a ≠ "INNER JOIN " ++ b := by
  intro h
  have h1 := congrArg (fun s : String => s.data.head?) h
  simp only [String.data_append] at h1
  simp only [List.cons_append, List.head?_cons] at h1
  exact absurd (Option.some.inj h1) (by decide)

theorem inner_append_inj {a b : String} (h : "INNER JOIN " ++ a = "INNER JOIN " ++ b) :
    a = b := by
  have h1 := congrArg String.data h
  simp only [String.data_append] at h1
  exact str_ext (List.append_cancel_left h1)

/-! ### Membership structure of the suggestion pipeline -/

theorem mem_rowSuggestions {s : Suggestion} {row : QueryRow} :
    s ∈ rowSuggestions row ↔
      s = leftSuggestion row ∨ (90 ≤ row.priority ∧ s = innerSuggestion row) := by
  unfold rowSuggestions
  split
  · next h => simp [h]
  · next h => simp [h]

theorem mem_allCandidates {db : Database} {ex : List TableRef} {nt : TableRef}
    {s : Suggestion} :
    s ∈ allCandidates db ex nt ↔ ∃ t ∈ ex, s ∈ findJoinsBetweenTables db t nt := by
  unfold allCandidates
  exact List.mem_flatMap

theorem mem_findJoins {db : Database} {lt rt : TableRef} {s : Suggestion} :
    s ∈ findJoinsBetweenTables db lt rt ↔
      ∃ row ∈ queryRows db (mkInputs lt rt), s ∈ rowSuggestions row := by
  unfold findJoinsBetweenTables
  exact List.mem_flatMap

theorem mem_queryRows {db : Database} {inp : Inputs} {row : QueryRow} :
    row ∈ queryRows db inp ↔
      row ∈ case1Rows inp (lRows db inp) (rRows db inp) ++
        (case2Rows inp (lRows db inp) ++ case3Rows inp (rRows db inp)) := by
  unfold queryRows
  exact mem_sortByKeyDesc

theorem queryRow_shape {db : Database} {inp : Inputs} {row : QueryRow}
    (hr : row ∈ queryRows db inp) :
    (∃ rest, row.generated_sql = "LEFT JOIN " ++ rest) ∧
      (row.priority = 85 ∨ row.priority = 90 ∨ row.priority = 95 ∨ row.priority = 100) := by
  rcases List.mem_append.mp (mem_queryRows.mp hr) with h1 | h23
  · rcases List.mem_flatMap.mp h1 with ⟨le, _, hmap⟩
    rcases List.mem_map.mp hmap with ⟨re, _, heq⟩
    subst heq
    refine ⟨⟨_, rfl⟩, ?_⟩
    dsimp only [case1Row]
    split <;> split <;> decide
  · rcases List.mem_append.mp h23 with h2 | h3
    · rcases List.mem_map.mp h2 with ⟨le, _, heq⟩
      subst heq
      refine ⟨⟨_, rfl⟩, ?_⟩
      dsimp only [case2Row]
      split <;> decide
    · rcases List.mem_map.mp h3 with ⟨re, _, heq⟩
      subst heq
      refine ⟨⟨_, rfl⟩, ?_⟩
      dsimp only [case3Row]
      split <;> decide

theorem cand_classify {db : Database} {ex : List TableRef} {nt : TableRef}
    {s : Suggestion} (hs : s ∈ allCandidates db ex nt) :
    (s.joinType = JoinType.leftJoin ∧
      (∃ rest, s.expression = "LEFT JOIN " ++ rest) ∧
      (s.score = 85 ∨ s.score = 90 ∨ s.score = 95 ∨ s.score = 100) ∧
      (90 ≤ s.score → innerVariant s ∈ allCandidates db ex nt)) ∨
    (s.joinType = JoinType.innerJoin ∧
      ∃ d ∈ allCandidates db ex nt, d.joinType = JoinType.leftJoin ∧ 90 ≤ d.score ∧
        s.expression = replaceFirst "LEFT JOIN" "INNER JOIN" d.expression ∧
        s.score = d.score + 5) := by
  rcases mem_allCandidates.mp hs with ⟨t, ht, hf⟩
  rcases mem_findJoins.mp hf with ⟨row, hrow, hsug⟩
  have hshape := queryRow_shape hrow
  rcases mem_rowSuggestions.mp hsug with h | ⟨h90, h⟩
  · subst h
    left
    refine ⟨rfl, hshape.1, hshape.2, ?_⟩
    intro h90
    have hmem : innerSuggestion row ∈ rowSuggestions row := by
      unfold rowSuggestions
      rw [if_pos (show 90 ≤ row.priority from h90)]
      simp
    exact mem_allCandidates.mpr ⟨t, ht, mem_findJoins.mpr ⟨row, hrow, hmem⟩⟩
  · subst h
    right
    have hmem : leftSuggestion row ∈ rowSuggestions row := by
      unfold rowSuggestions
      rw [if_pos h90]
      simp
    exact ⟨rfl, leftSuggestion row,
      mem_allCandidates.mpr ⟨t, ht, mem_findJoins.mpr ⟨row, hrow, hmem⟩⟩,
      rfl, h90, rfl, rfl⟩

/-! ### Properties of the merged output -/

theorem mem_out_candidates {db : Database} {ex : List TableRef} {nt : TableRef}
    {s : Suggestion} (hs : s ∈ suggestJoinExpressions db ex nt) :
    s ∈ allCandidates db ex nt :=
  mem_sortByKeyDesc.mp (mem_of_mem_dedupByExprAux hs)

theorem out_sorted (db : Database) (ex : List TableRef) (nt : TableRef) :
    (suggestJoinExpressions db ex nt).Pairwise fun a b => b.score ≤ a.score :=
  List.Pairwise.sublist (dedupByExprAux_sublist _ _)
    (sortByKeyDesc_sorted (fun s : Suggestion => s.score) (allCandidates db ex nt))

theorem out_distinct (db : Database) (ex : List TableRef) (nt : TableRef) :
    (suggestJoinExpressions db ex nt).Pairwise fun a b => a.expression ≠ b.expression :=
  pairwise_dedupByExprAux _ _

theorem out_max {db : Database} {ex : List TableRef} {nt : TableRef}
    {s c : Suggestion} (hs : s ∈ suggestJoinExpressions db ex nt)
    (hc : c ∈ allCandidates db ex nt) (he : c.expression = s.expression) :
    c.score ≤ s.score :=
  max_dedupByExprAux _ []
    (sortByKeyDesc_sorted (fun s : Suggestion => s.score) (allCandidates db ex nt))
    hs (mem_sortByKeyDesc.mpr hc) he

theorem out_rep {db : Database} {ex : List TableRef} {nt : TableRef}
    {c : Suggestion} (hc : c ∈ allCandidates db ex nt) :
    ∃ t ∈ suggestJoinExpressions db ex nt, t.expression = c.expression :=
  rep_dedupByExprAux (mem_sortByKeyDesc.mpr hc) (by simp)

/-! ### The two CTEs as membership predicates -/

theorem mem_lRows {db : Database} {inp : Inputs} {e : FkConstraintRow} :
    e ∈ lRows db inp ↔
      e ∈ db.fkRows ∧ e.table_schema = inp.left_schema ∧ e.table_name = inp.left_table := by
  unfold lRows
  simp [List.mem_filter]

theorem mem_rRows {db : Database} {inp : Inputs} {e : FkConstraintRow} :
    e ∈ rRows db inp ↔
      e ∈ db.fkRows ∧ e.table_schema = inp.right_schema ∧ e.table_name = inp.right_table := by
  unfold rRows
  simp [List.mem_filter]

/-! ### Empty-result lemmas -/

theorem flatMap_nil_of {l : List β} {f : β → List γ} (h : ∀ x ∈ l, f x = []) :
    l.flatMap f = [] := by
  induction l with
  | nil => rfl
  | cons a as ih =>
    rw [List.flatMap_cons, h a (List.mem_cons_self _ _), List.nil_append]
    exact ih fun x hx => h x (List.mem_cons_of_mem _ hx)

theorem queryRows_eq_nil {db : Database} {inp : Inputs}
    (h1 : case1Rows inp (lRows db inp) (rRows db inp) = [])
    (h2 : case2Rows inp (lRows db inp) = [])
    (h3 : case3Rows inp (rRows db inp) = []) :
    queryRows db inp = [] := by
  unfold queryRows
  rw [h1, h2, h3]
  rfl

theorem findJoins_eq_nil {db : Database} {lt rt : TableRef}
    (h : queryRows db (mkInputs lt rt) = []) :
    findJoinsBetweenTables db lt rt = [] := by
  unfold findJoinsBetweenTables
  rw [h]
  rfl

theorem suggest_eq_nil {db : Database} {ex : List TableRef} {nt : TableRef}
    (h : ∀ t ∈ ex, findJoinsBetweenTables db t nt = []) :
    suggestJoinExpressions db ex nt = [] := by
  unfold suggestJoinExpressions allCandidates
  rw [flatMap_nil_of h]
  rfl

/-! ### Facts about splitting table identifiers on dots -/

theorem splitOnDot_ne_nil : ∀ l : List Char, splitOnDot l ≠ [] := by
  intro l
  induction l with
  | nil => simp [splitOnDot]
  | cons c cs ih =>
    unfold splitOnDot
    split
    · simp
    · rcases hsp : splitOnDot cs with _ | ⟨p, ps⟩
      · simp
      · simp

theorem splitOnDot_no_dot {l : List Char} (h : '.' ∉ l) : splitOnDot l = [l] := by
  induction l with
  | nil => rfl
  | cons c cs ih =>
    have hc : ¬ c = '.' := fun he => h (he ▸ List.mem_cons_self _ _)
    have hcs : '.' ∉ cs := fun hm => h (List.mem_cons_of_mem _ hm)
    unfold splitOnDot
    rw [if_neg hc, ih hcs]

theorem splitOnDot_append {l : List Char} (m : List Char) (h : '.' ∉ l) :
    splitOnDot (l ++ '.' :: m) = l :: splitOnDot m := by
  induction l with
  | nil =>
    show splitOnDot ('.' :: m) = [] :: splitOnDot m
    simp only [splitOnDot]
    simp
  | cons c cs ih =>
    have hc : ¬ c = '.' := fun he => h (he ▸ List.mem_cons_self _ _)
    have hcs : '.' ∉ cs := fun hm => h (List.mem_cons_of_mem _ hm)
    show splitOnDot (c :: (cs ++ '.' :: m)) = (c :: cs) :: splitOnDot m
    simp only [splitOnDot]
    rw [if_neg hc, ih hcs]

theorem length_splitOnDot : ∀ l : List Char, (splitOnDot l).length = l.count '.' + 1 := by
  intro l
  induction l with
  | nil => rfl
  | cons c cs ih =>
    unfold splitOnDot
    by_cases hc : c = '.'
    · rw [if_pos hc]
      simp only [List.length_cons, ih, List.count_cons]
      rw [hc]
      simp
    · rw [if_neg hc]
      rcases hsp : splitOnDot cs with _ | ⟨p, ps⟩
      · exact absurd hsp (splitOnDot_ne_nil cs)
      · rw [hsp] at ih
        simp only [List.length_cons] at ih
        simp only [List.length_cons, List.count_cons]
        have hne : (c == '.') = false := by
          simp only [beq_eq_false_iff_ne, ne_eq]
          exact hc
        rw [hne]
        simp
        omega

/-! ### Claim theorems -/

/-- C10: for every newTable value, suggestJoins called with an empty
existingTables sequence returns an empty suggestion list and succeeds;
the loop body never runs, so no metadata is consulted and the existence
of newTable is never checked (the result is the empty list for every
database state and every newTable). -/
theorem claim10_empty_existing (db : Database) (nt : TableRef) :
    suggestJoinExpressions db [] nt = [] := rfl

/-- C8: every score in the output of suggestJoins is one of 85, 90, 95,
100 or 105; in particular the documented 70-89 and below-50 confidence
bands are never produced. -/
theorem claim8_score_range (db : Database) (ex : List TableRef) (nt : TableRef)
    (s : Suggestion) (hs : s ∈ suggestJoinExpressions db ex nt) :
    s.score = 85 ∨ s.score = 90 ∨ s.score = 95 ∨ s.score = 100 ∨ s.score = 105 := by
  have hc := mem_out_candidates hs
  rcases cand_classify hc with ⟨_, _, hsc, _⟩ | ⟨_, d, hdmem, hdleft, hd90, _, hsc⟩
  · omega
  · rcases cand_classify hdmem with ⟨_, _, hdsc, _⟩ | ⟨hdinner, _⟩
    · omega
    · rw [hdleft] at hdinner
      cases hdinner

/-- C8 witness: the concrete scenario schema produces a score of 105,
which the theorem places inside the admissible score set. -/
theorem claim8_score_range_witness :
    (Suggestion.mk JoinType.innerJoin
        "INNER JOIN order_items u ON oi.user_id = u.id"
        "Reverse foreign key relationship from order_items to users (FK: order_items_user_id_fkey)"
        105).score = 85 ∨
      (105 : Nat) = 90 ∨ (105 : Nat) = 95 ∨ (105 : Nat) = 100 ∨ (105 : Nat) = 105 :=
  claim8_score_range dbFull [⟨"users", "u"⟩, ⟨"orders", "o"⟩] ⟨"order_items", "oi"⟩
    _ (by decide)

/-- C4: the output of suggestJoins has pairwise-distinct expressions, is
sorted by score descending, every element is one of the generated
candidates, the kept element of every expression is maximal-scoring
among all candidates with that expression (candidates are sorted by
score descending before deduplicating), the output is a sublist of the
stable descending sort of the candidate list, and that sort is stable:
any subsequence of the candidates already in descending-score order
(in particular any block of tied scores in input order) survives as a
subsequence of the sorted list. -/
theorem claim4_ranking (db : Database) (ex : List TableRef) (nt : TableRef) :
    (suggestJoinExpressions db ex nt).Pairwise
        (fun a b => a.expression ≠ b.expression) ∧
    (suggestJoinExpressions db ex nt).Pairwise (fun a b => b.score ≤ a.score) ∧
    (∀ s ∈ suggestJoinExpressions db ex nt, s ∈ allCandidates db ex nt) ∧
    (∀ s ∈ suggestJoinExpressions db ex nt, ∀ c ∈ allCandidates db ex nt,
      c.expression = s.expression → c.score ≤ s.score) ∧
    List.Sublist (suggestJoinExpressions db ex nt)
      (sortByKeyDesc (fun s => s.score) (allCandidates db ex nt)) ∧
    (∀ c, List.Sublist c (allCandidates db ex nt) →
      c.Pairwise (fun a b => b.score ≤ a.score) →
      List.Sublist c (sortByKeyDesc (fun s => s.score) (allCandidates db ex nt))) :=
  ⟨out_distinct db ex nt, out_sorted db ex nt,
    fun _ hs => mem_out_candidates hs,
    fun _ hs _ hc he => out_max hs hc he,
    dedupByExprAux_sublist _ _,
    fun _ hc hp => sortByKeyDesc_stable hp hc⟩

/-- C4 witness: the descending-score conclusion instantiated on the
concrete scenario schema. -/
theorem claim4_ranking_witness :
    (suggestJoinExpressions dbFull [⟨"users", "u"⟩, ⟨"orders", "o"⟩]
        ⟨"order_items", "oi"⟩).Pairwise (fun a b => b.score ≤ a.score) :=
  (claim4_ranking dbFull [⟨"users", "u"⟩, ⟨"orders", "o"⟩] ⟨"order_items", "oi"⟩).2.1

/-- C1 counterexample: with the concrete scenario schema, calling
suggestJoins with a newTable identifier that does not resolve to any
existing table returns the empty suggestion list and succeeds; no
TableNotFound error is raised anywhere on this code path, refuting the
claim that the call must fail rather than return an empty list. -/
theorem claim1_counterexample :
    ¬ tableExists dbFull "nosuch" ∧
      suggestJoinExpressions dbFull [⟨"users", "u"⟩] ⟨"nosuch", "n"⟩ = [] :=
  ⟨by decide, by decide⟩

/-- C1 (amended): in any edge-well-formed database, if the newTable
identifier does not resolve to an existing table then suggestJoins
returns the empty suggestion list (and, being a total function, the
call succeeds); it does not fail with TableNotFound, because the join
path performs no existence check. -/
theorem claim1_unknown_table_empty (db : Database) (ex : List TableRef)
    (nt : TableRef) (hwf : dbWellFormed db) (hnt : ¬ tableExists db nt.tableName) :
    suggestJoinExpressions db ex nt = [] := by
  apply suggest_eq_nil
  intro t _
  apply findJoins_eq_nil
  have hR : rRows db (mkInputs t nt) = [] := by
    unfold rRows
    rw [List.filter_eq_nil_iff]
    intro e he hb
    simp only [Bool.and_eq_true, beq_iff_eq] at hb
    have hmem := (hwf e he).1
    rw [hb.1, hb.2] at hmem
    apply hnt
    unfold tableExists
    simpa using hmem
  have hL2 : (lRows db (mkInputs t nt)).filter (fun le =>
      le.referenced_schema == (mkInputs t nt).right_schema &&
      le.referenced_table == (mkInputs t nt).right_table) = [] := by
    rw [List.filter_eq_nil_iff]
    intro e he hb
    simp only [Bool.and_eq_true, beq_iff_eq] at hb
    have he2 : e ∈ db.fkRows := (mem_lRows.mp he).1
    have hmem := (hwf e he2).2
    rw [hb.1, hb.2] at hmem
    apply hnt
    unfold tableExists
    simpa using hmem
  apply queryRows_eq_nil
  · unfold case1Rows
    apply flatMap_nil_of
    intro le _
    rw [hR]
    rfl
  · unfold case2Rows
    rw [hL2]
    rfl
  · unfold case3Rows
    rw [hR]
    rfl

/-- C1 witness for the amended claim: the hypotheses hold for the
concrete scenario schema and an unknown table, and the output is
empty. -/
theorem claim1_unknown_table_empty_witness :
    suggestJoinExpressions dbFull [⟨"orders", "o"⟩] ⟨"nosuch", "n"⟩ = [] :=
  claim1_unknown_table_empty dbFull [⟨"orders", "o"⟩] ⟨"nosuch", "n"⟩
    (by decide) (by decide)

/-- C9 counterexample: an identifier with more than one dot is not
split at the first separator; tableName.split takes effect only when
there are exactly two parts, so a.b.c falls back to the default schema
with the entire identifier as the table name, refuting the claimed
first-separator split. -/
theorem claim9_counterexample :
    splitTableName "a.b.c" = ("public", "a.b.c") ∧
      splitTableName "a.b.c" ≠ ("a", "b.c") :=
  ⟨by decide, by decide⟩

/-- C9 (amended): an identifier with exactly one separator is split
into schema and table at that separator, and any identifier whose
number of separators is not exactly one (none, or more than one)
defaults to the public schema with the whole identifier as the table
name. -/
theorem claim9_split_behavior :
    (∀ pre post : String, '.' ∉ pre.data → '.' ∉ post.data →
      splitTableName (pre ++ "." ++ post) = (pre, post)) ∧
    (∀ s : String, s.data.count '.' ≠ 1 → splitTableName s = ("public", s)) := by
  constructor
  · intro pre post hpre hpost
    unfold splitTableName
    have hdata : (pre ++ "." ++ post).data = pre.data ++ '.' :: post.data := by
      rw [String.data_append, String.data_append]
      rw [show ("." : String).data = ['.'] from rfl, List.append_assoc]
      rfl
    rw [hdata, splitOnDot_append post.data hpre, splitOnDot_no_dot hpost]
    simp
  · intro s hcount
    unfold splitTableName
    have hlen := length_splitOnDot s.data
    rw [if_neg (by omega)]

/-- C9 witness for the amended claim: a one-separator identifier splits
at the separator and a two-separator identifier falls back to the
public schema. -/
theorem claim9_split_behavior_witness :
    splitTableName ("myschema" ++ "." ++ "mytable") = ("myschema", "mytable") ∧
      splitTableName "a.b.c" = ("public", "a.b.c") :=
  ⟨claim9_split_behavior.1 "myschema" "mytable" (by decide) (by decide),
    claim9_split_behavior.2 "a.b.c" (by decide)⟩

/-- C7: when the two tables have no direct reference, no reverse
reference and no shared referenced column, the pairwise result of the
join search is the empty sequence, and the whole call succeeds with an
empty output; the absence of a relationship is never promoted to an
error (the functions are total). -/
theorem claim7_no_relationship (db : Database) (L R : TableRef)
    (h1 : ∀ e ∈ db.fkRows, sourceMatches L e → ¬ refMatches R e)
    (h2 : ∀ e ∈ db.fkRows, sourceMatches R e → ¬ refMatches L e)
    (h3 : ∀ le ∈ db.fkRows, ∀ re ∈ db.fkRows,
      sourceMatches L le → sourceMatches R re → ¬ sameTarget le re) :
    findJoinsBetweenTables db L R = [] ∧ suggestJoinExpressions db [L] R = [] := by
  have hf : findJoinsBetweenTables db L R = [] := by
    apply findJoins_eq_nil
    apply queryRows_eq_nil
    · unfold case1Rows
      apply flatMap_nil_of
      intro le hle
      have hle2 := mem_lRows.mp hle
      have hfilter : (rRows db (mkInputs L R)).filter (fun re =>
          le.referenced_schema == re.referenced_schema &&
          le.referenced_table == re.referenced_table &&
          le.referenced_column == re.referenced_column) = [] := by
        rw [List.filter_eq_nil_iff]
        intro re hre hb
        have hre2 := mem_rRows.mp hre
        simp only [Bool.and_eq_true, beq_iff_eq] at hb
        exact h3 le hle2.1 re hre2.1 ⟨hle2.2.1, hle2.2.2⟩ ⟨hre2.2.1, hre2.2.2⟩
          ⟨hb.1.1, hb.1.2, hb.2⟩
      rw [hfilter]
      rfl
    · unfold case2Rows
      have hfilter : (lRows db (mkInputs L R)).filter (fun le =>
          le.referenced_schema == (mkInputs L R).right_schema &&
          le.referenced_table == (mkInputs L R).right_table) = [] := by
        rw [List.filter_eq_nil_iff]
        intro le hle hb
        have hle2 := mem_lRows.mp hle
        simp only [Bool.and_eq_true, beq_iff_eq] at hb
        exact h1 le hle2.1 ⟨hle2.2.1, hle2.2.2⟩ ⟨hb.1, hb.2⟩
      rw [hfilter]
      rfl
    · unfold case3Rows
      have hfilter : (rRows db (mkInputs L R)).filter (fun re =>
          re.referenced_schema == (mkInputs L R).left_schema &&
          re.referenced_table == (mkInputs L R).left_table) = [] := by
        rw [List.filter_eq_nil_iff]
        intro re hre hb
        have hre2 := mem_rRows.mp hre
        simp only [Bool.and_eq_true, beq_iff_eq] at hb
        exact h2 re hre2.1 ⟨hre2.2.1, hre2.2.2⟩ ⟨hb.1, hb.2⟩
      rw [hfilter]
      rfl
  refine ⟨hf, suggest_eq_nil ?_⟩
  intro t ht
  rw [List.mem_singleton.mp ht]
  exact hf

/-- C7 witness: customers and products are unrelated in the concrete
schema, and both the pairwise result and the merged output are
empty. -/
theorem claim7_no_relationship_witness :
    findJoinsBetweenTables dbUnrelated ⟨"customers", "c"⟩ ⟨"products", "p"⟩ = [] ∧
      suggestJoinExpressions dbUnrelated [⟨"customers", "c"⟩] ⟨"products", "p"⟩ = [] :=
  claim7_no_relationship dbUnrelated ⟨"customers", "c"⟩ ⟨"products", "p"⟩
    (by decide) (by decide) (by decide)

/-- C2: evaluation of the code at the failing input.  order_items has a
foreign key to orders; adding order_items (alias oi) to a query that
contains orders (alias o) renders the reverse-reference clause as
LEFT JOIN order_items o ON oi.order_id = o.id: the joined table is the
right (new) table, but the appended alias is the LEFT alias o, not the
right alias oi required by the claim (whose expected rendering
LEFT JOIN order_items oi ON oi.order_id = o.id never appears). -/
theorem claim2_code_behavior :
    suggestJoinExpressions dbReverse [⟨"orders", "o"⟩] ⟨"order_items", "oi"⟩ =
      [ Suggestion.mk JoinType.innerJoin
          "INNER JOIN order_items o ON oi.order_id = o.id"
          "Reverse foreign key relationship from order_items to orders (FK: order_items_order_id_fkey)"
          105
      , Suggestion.mk JoinType.leftJoin
          "LEFT JOIN order_items o ON oi.order_id = o.id"
          "Reverse foreign key relationship from order_items to orders (FK: order_items_order_id_fkey)"
          100 ] := by decide

/-- C3 counterexample: in the shared-reference schema, orders and
order_items both reference users.id (a matching edge pair exists in the
two CTEs), yet the only emitted suggestion introduces the right table
order_items; no clause introducing the referenced third table users is
ever rendered (the expression does not even mention users), refuting
the claim that the shared-reference rule brings in the referenced
table. -/
theorem claim3_counterexample :
    fkOrdersUser ∈ lRows dbShared (mkInputs ⟨"orders", "o"⟩ ⟨"order_items", "oi"⟩) ∧
    fkItemsUser ∈ rRows dbShared (mkInputs ⟨"orders", "o"⟩ ⟨"order_items", "oi"⟩) ∧
    sameTarget fkOrdersUser fkItemsUser ∧
    suggestJoinExpressions dbShared [⟨"orders", "o"⟩] ⟨"order_items", "oi"⟩ =
      [ Suggestion.mk JoinType.leftJoin
          "LEFT JOIN order_items oi ON o.user_id = oi.user_id"
          "Join through shared reference to users (FK: orders_user_id_fkey, order_items_user_id_fkey)"
          85 ] ∧
    positionFound "users" "LEFT JOIN order_items oi ON o.user_id = oi.user_id" = false :=
  ⟨by decide, by decide, by decide, by decide, by decide⟩

/-- C3 (amended): for every pair of foreign-key edges, one from the
left (existing) table and one from the right (new) table, targeting the
same schema, table and column, the engine emits a LEFT JOIN candidate
that brings in the RIGHT table (rendered from the right edge with the
right alias appended when it differs from that table name), with ON
clause left.alias.Lcol = right.alias.Rcol, scored 85 baseline and
boosted to 90 when either edge column textually contains its own table
alias; the referenced third table appears only in the rationale text;
and the merged output keeps a suggestion with that expression at a
score at least as high. -/
theorem claim3_shared_reference (db : Database) (ex : List TableRef) (L R : TableRef)
    (le re : FkConstraintRow) (hL : L ∈ ex)
    (hle : le ∈ lRows db (mkInputs L R)) (hre : re ∈ rRows db (mkInputs L R))
    (htgt : sameTarget le re) :
    leftSuggestion (case1Row (mkInputs L R) le re) ∈ findJoinsBetweenTables db L R ∧
    (case1Row (mkInputs L R) le re).generated_sql =
      "LEFT JOIN " ++ (schemaPart re.table_schema ++ (re.table_name ++
        (aliasPart re.table_name R.tableAlias ++ (" ON " ++
          (L.tableAlias ++ ("." ++ (le.column_name ++ (" = " ++
            (R.tableAlias ++ ("." ++ re.column_name)))))))))) ∧
    (case1Row (mkInputs L R) le re).priority =
      (if positionFound R.tableAlias re.column_name ||
          positionFound L.tableAlias le.column_name then 90 else 85) ∧
    (case1Row (mkInputs L R) le re).description =
      "Join through shared reference to " ++ le.referenced_table ++ " (FK: " ++
        le.constraint_name ++ ", " ++ re.constraint_name ++ ")" ∧
    ∃ s2 ∈ suggestJoinExpressions db ex R,
      s2.expression = (case1Row (mkInputs L R) le re).generated_sql ∧
      (case1Row (mkInputs L R) le re).priority ≤ s2.score := by
  have hrow : case1Row (mkInputs L R) le re ∈
      case1Rows (mkInputs L R) (lRows db (mkInputs L R)) (rRows db (mkInputs L R)) := by
    unfold case1Rows
    refine List.mem_flatMap.mpr ⟨le, hle, ?_⟩
    refine List.mem_map.mpr ⟨re, ?_, rfl⟩
    refine List.mem_filter.mpr ⟨hre, ?_⟩
    simp only [Bool.and_eq_true, beq_iff_eq]
    exact ⟨⟨htgt.1, htgt.2.1⟩, htgt.2.2⟩
  have hrowq : case1Row (mkInputs L R) le re ∈ queryRows db (mkInputs L R) :=
    mem_queryRows.mpr (List.mem_append.mpr (Or.inl hrow))
  have hmemf : leftSuggestion (case1Row (mkInputs L R) le re) ∈
      findJoinsBetweenTables db L R :=
    mem_findJoins.mpr ⟨_, hrowq, mem_rowSuggestions.mpr (Or.inl rfl)⟩
  have hpr : (case1Row (mkInputs L R) le re).priority =
      (if positionFound R.tableAlias re.column_name ||
          positionFound L.tableAlias le.column_name then 90 else 85) := by
    cases h1 : positionFound R.tableAlias re.column_name <;>
      cases h2 : positionFound L.tableAlias le.column_name <;>
      simp [case1Row, mkInputs, h1, h2]
  have hcand : leftSuggestion (case1Row (mkInputs L R) le re) ∈ allCandidates db ex R :=
    mem_allCandidates.mpr ⟨L, hL, hmemf⟩
  rcases out_rep hcand with ⟨s2, hs2, hexpr⟩
  exact ⟨hmemf, rfl, hpr, rfl, s2, hs2, hexpr, out_max hs2 hcand hexpr.symm⟩

/-- C3 witness for the amended claim: the shared-reference candidate of
the concrete schema is produced by the pairwise search. -/
theorem claim3_shared_reference_witness :
    leftSuggestion (case1Row (mkInputs ⟨"orders", "o"⟩ ⟨"order_items", "oi"⟩)
        fkOrdersUser fkItemsUser) ∈
      findJoinsBetweenTables dbShared ⟨"orders", "o"⟩ ⟨"order_items", "oi"⟩ :=
  (claim3_shared_reference dbShared [⟨"orders", "o"⟩] ⟨"orders", "o"⟩
    ⟨"order_items", "oi"⟩ fkOrdersUser fkItemsUser (by decide) (by decide)
    (by decide) (by decide)).1

/-- C6: if table A has a foreign key e to table B (with fixed aliases),
then the pairwise search of suggestJoins for ([A], B) yields a direct
suggestion and the pairwise search for ([B], A) yields a reverse
suggestion, both referencing the constraint of e in their rationale,
with the same score: 100 when the source column of e textually contains
the alias of B (the referenced table), 95 otherwise; and the merged
output of each call keeps a suggestion with the corresponding rendered
expression at a score at least that high. -/
theorem claim6_symmetry (db : Database) (A B : TableRef) (e : FkConstraintRow)
    (he : e ∈ db.fkRows) (hsrc : sourceMatches A e) (href : refMatches B e) :
    (∃ s ∈ findJoinsBetweenTables db A B,
      s.joinType = JoinType.leftJoin ∧
      s.score = (if positionFound B.tableAlias e.column_name then 100 else 95) ∧
      s.description = "Direct foreign key relationship from " ++
        (splitTableName A.tableName).2 ++ " to " ++ (splitTableName B.tableName).2 ++
        " (FK: " ++ e.constraint_name ++ ")") ∧
    (∃ s ∈ findJoinsBetweenTables db B A,
      s.joinType = JoinType.leftJoin ∧
      s.score = (if positionFound B.tableAlias e.column_name then 100 else 95) ∧
      s.description = "Reverse foreign key relationship from " ++
        (splitTableName A.tableName).2 ++ " to " ++ (splitTableName B.tableName).2 ++
        " (FK: " ++ e.constraint_name ++ ")") ∧
    (∃ t ∈ suggestJoinExpressions db [A] B,
      t.expression = (case2Row (mkInputs A B) e).generated_sql ∧
      (if positionFound B.tableAlias e.column_name then 100 else 95) ≤ t.score) ∧
    (∃ t ∈ suggestJoinExpressions db [B] A,
      t.expression = (case3Row (mkInputs B A) e).generated_sql ∧
      (if positionFound B.tableAlias e.column_name then 100 else 95) ≤ t.score) := by
  have hle : e ∈ lRows db (mkInputs A B) := mem_lRows.mpr ⟨he, hsrc.1, hsrc.2⟩
  have hre : e ∈ rRows db (mkInputs B A) := mem_rRows.mpr ⟨he, hsrc.1, hsrc.2⟩
  have hrow2 : case2Row (mkInputs A B) e ∈
      case2Rows (mkInputs A B) (lRows db (mkInputs A B)) := by
    unfold case2Rows
    refine List.mem_map.mpr ⟨e, ?_, rfl⟩
    refine List.mem_filter.mpr ⟨hle, ?_⟩
    simp only [Bool.and_eq_true, beq_iff_eq]
    exact ⟨href.1, href.2⟩
  have hrow3 : case3Row (mkInputs B A) e ∈
      case3Rows (mkInputs B A) (rRows db (mkInputs B A)) := by
    unfold case3Rows
    refine List.mem_map.mpr ⟨e, ?_, rfl⟩
    refine List.mem_filter.mpr ⟨hre, ?_⟩
    simp only [Bool.and_eq_true, beq_iff_eq]
    exact ⟨href.1, href.2⟩
  have hrowq2 : case2Row (mkInputs A B) e ∈ queryRows db (mkInputs A B) :=
    mem_queryRows.mpr (List.mem_append.mpr (Or.inr (List.mem_append.mpr (Or.inl hrow2))))
  have hrowq3 : case3Row (mkInputs B A) e ∈ queryRows db (mkInputs B A) :=
    mem_queryRows.mpr (List.mem_append.mpr (Or.inr (List.mem_append.mpr (Or.inr hrow3))))
  have hmem2 : leftSuggestion (case2Row (mkInputs A B) e) ∈
      findJoinsBetweenTables db A B :=
    mem_findJoins.mpr ⟨_, hrowq2, mem_rowSuggestions.mpr (Or.inl rfl)⟩
  have hmem3 : leftSuggestion (case3Row (mkInputs B A) e) ∈
      findJoinsBetweenTables db B A :=
    mem_findJoins.mpr ⟨_, hrowq3, mem_rowSuggestions.mpr (Or.inl rfl)⟩
  have hpr2 : (case2Row (mkInputs A B) e).priority =
      (if positionFound B.tableAlias e.column_name then 100 else 95) := by
    cases h1 : positionFound B.tableAlias e.column_name <;>
      simp [case2Row, mkInputs, h1]
  have hpr3 : (case3Row (mkInputs B A) e).priority =
      (if positionFound B.tableAlias e.column_name then 100 else 95) := by
    cases h1 : positionFound B.tableAlias e.column_name <;>
      simp [case3Row, mkInputs, h1]
  have hcand2 : leftSuggestion (case2Row (mkInputs A B) e) ∈ allCandidates db [A] B :=
    mem_allCandidates.mpr ⟨A, List.mem_singleton_self A, hmem2⟩
  have hcand3 : leftSuggestion (case3Row (mkInputs B A) e) ∈ allCandidates db [B] A :=
    mem_allCandidates.mpr ⟨B, List.mem_singleton_self B, hmem3⟩
  rcases out_rep hcand2 with ⟨t2, ht2, hexpr2⟩
  rcases out_rep hcand3 with ⟨t3, ht3, hexpr3⟩
  refine ⟨⟨_, hmem2, rfl, hpr2, rfl⟩, ⟨_, hmem3, rfl, hpr3, rfl⟩,
    ⟨t2, ht2, hexpr2, ?_⟩, ⟨t3, ht3, hexpr3, ?_⟩⟩
  · calc (if positionFound B.tableAlias e.column_name then 100 else 95)
        = (leftSuggestion (case2Row (mkInputs A B) e)).score := hpr2.symm
      _ ≤ t2.score := out_max ht2 hcand2 hexpr2.symm
  · calc (if positionFound B.tableAlias e.column_name then 100 else 95)
        = (leftSuggestion (case3Row (mkInputs B A) e)).score := hpr3.symm
      _ ≤ t3.score := out_max ht3 hcand3 hexpr3.symm

/-- C6 witness: for order_items referencing orders in the concrete
schema, the direct half of the symmetry conclusion instantiated. -/
theorem claim6_symmetry_witness :
    ∃ s ∈ findJoinsBetweenTables dbFull ⟨"order_items", "oi"⟩ ⟨"orders", "o"⟩,
      s.joinType = JoinType.leftJoin ∧
      s.score = (if positionFound "o" fkItemsOrder.column_name then 100 else 95) ∧
      s.description = "Direct foreign key relationship from " ++
        (splitTableName "order_items").2 ++ " to " ++ (splitTableName "orders").2 ++
        " (FK: " ++ fkItemsOrder.constraint_name ++ ")" :=
  (claim6_symmetry dbFull ⟨"order_items", "oi"⟩ ⟨"orders", "o"⟩ fkItemsOrder
    (by decide) (by decide) (by decide)).1

/-- Two LEFT JOIN expressions whose INNER JOIN variants coincide are
equal: the replacement only rewrites the leading join keyword. -/
theorem left_expr_eq_of_inner_eq {d s : Suggestion} {rd rs : String}
    (hd : d.expression = "LEFT JOIN " ++ rd) (hs : s.expression = "LEFT JOIN " ++ rs)
    (h : replaceFirst "LEFT JOIN" "INNER JOIN" d.expression =
      replaceFirst "LEFT JOIN" "INNER JOIN" s.expression) :
    d.expression = s.expression := by
  rw [hd, hs, replaceFirst_left_inner, replaceFirst_left_inner] at h
  rw [hd, hs, inner_append_inj h]

/-- C5: in the output of suggestJoins, every LEFT JOIN suggestion with
score at least 90 has a corresponding INNER JOIN suggestion whose
expression is the same text with the join keyword replaced and whose
score is exactly 5 higher; and no suggestion in the output carries the
INNER JOIN variant of the expression of a LEFT JOIN suggestion scored
below 90. -/
theorem claim5_inner_left_pairing (db : Database) (ex : List TableRef) (nt : TableRef) :
    (∀ s ∈ suggestJoinExpressions db ex nt,
      s.joinType = JoinType.leftJoin → 90 ≤ s.score →
      ∃ t ∈ suggestJoinExpressions db ex nt,
        t.joinType = JoinType.innerJoin ∧
        t.expression = replaceFirst "LEFT JOIN" "INNER JOIN" s.expression ∧
        t.score = s.score + 5) ∧
    (∀ s ∈ suggestJoinExpressions db ex nt,
      s.joinType = JoinType.leftJoin → s.score < 90 →
      ∀ t ∈ suggestJoinExpressions db ex nt,
        t.expression ≠ replaceFirst "LEFT JOIN" "INNER JOIN" s.expression) := by
  constructor
  · intro s hs hjt h90
    have hsc := mem_out_candidates hs
    rcases cand_classify hsc with ⟨_, ⟨rs, hrs⟩, _, hinner⟩ | ⟨hji, _⟩
    swap
    · rw [hjt] at hji
      cases hji
    · have hiv := hinner h90
      rcases out_rep hiv with ⟨t, ht, hexpr⟩
      have hexpr2 : t.expression = replaceFirst "LEFT JOIN" "INNER JOIN" s.expression :=
        hexpr
      have htc := mem_out_candidates ht
      have htinner : t.joinType = JoinType.innerJoin := by
        rcases cand_classify htc with ⟨_, ⟨rt, hrt⟩, _, _⟩ | ⟨hji, _⟩
        · exfalso
          have hcontra : "LEFT JOIN " ++ rt = "INNER JOIN " ++ rs := by
            rw [← hrt, hexpr2, hrs, replaceFirst_left_inner]
          exact left_expr_ne_inner_expr rt rs hcontra
        · exact hji
      refine ⟨t, ht, htinner, hexpr2, ?_⟩
      have hge : s.score + 5 ≤ t.score := out_max ht hiv hexpr.symm
      have hle : t.score ≤ s.score + 5 := by
        rcases cand_classify htc with ⟨hjl, _, _, _⟩ | ⟨_, d, hd, hdl, hd90, hdexpr, hdsc⟩
        · rw [htinner] at hjl
          cases hjl
        · rcases cand_classify hd with ⟨_, ⟨rd, hrd⟩, _, _⟩ | ⟨hdi, _⟩
          swap
          · rw [hdl] at hdi
            cases hdi
          · have heq : d.expression = s.expression :=
              left_expr_eq_of_inner_eq hrd hrs (by rw [← hdexpr, hexpr2])
            have hds : d.score ≤ s.score := out_max hs hd heq
            omega
      omega
  · intro s hs hjt h90 t ht hexpr
    have hsc := mem_out_candidates hs
    rcases cand_classify hsc with ⟨_, ⟨rs, hrs⟩, _, _⟩ | ⟨hji, _⟩
    swap
    · rw [hjt] at hji
      cases hji
    · have htc := mem_out_candidates ht
      rcases cand_classify htc with ⟨_, ⟨rt, hrt⟩, _, _⟩ | ⟨_, d, hd, hdl, hd90, hdexpr, _⟩
      · have hcontra : "LEFT JOIN " ++ rt = "INNER JOIN " ++ rs := by
          rw [← hrt, hexpr, hrs, replaceFirst_left_inner]
        exact left_expr_ne_inner_expr rt rs hcontra
      · rcases cand_classify hd with ⟨_, ⟨rd, hrd⟩, _, _⟩ | ⟨hdi, _⟩
        swap
        · rw [hdl] at hdi
          cases hdi
        · have heq : d.expression = s.expression :=
            left_expr_eq_of_inner_eq hrd hrs (by rw [← hdexpr, hexpr])
          have hds : d.score ≤ s.score := out_max hs hd heq
          omega

/-- C5 witness: in the concrete scenario output, the LEFT JOIN
suggestion scored 100 has its INNER JOIN twin at score 105 with the
keyword-replaced expression. -/
theorem claim5_inner_left_pairing_witness :
    ∃ t ∈ suggestJoinExpressions dbFull [⟨"users", "u"⟩, ⟨"orders", "o"⟩]
        ⟨"order_items", "oi"⟩,
      t.joinType = JoinType.innerJoin ∧
      t.expression = replaceFirst "LEFT JOIN" "INNER JOIN"
        (Suggestion.mk JoinType.leftJoin
          "LEFT JOIN order_items u ON oi.user_id = u.id"
          "Reverse foreign key relationship from order_items to users (FK: order_items_user_id_fkey)"
          100).expression ∧
      t.score = (Suggestion.mk JoinType.leftJoin
          "LEFT JOIN order_items u ON oi.user_id = u.id"
          "Reverse foreign key relationship from order_items to users (FK: order_items_user_id_fkey)"
          100).score + 5 :=
  (claim5_inner_left_pairing dbFull [⟨"users", "u"⟩, ⟨"orders", "o"⟩]
    ⟨"order_items", "oi"⟩).1 _ (by decide) rfl (by decide)

end PgMcpJoins
